import Mathlib

/-!
Shallow embedding of the task-scheduling engine of this repository
(components/scheduler/base), centred on `TaskQueueImpl` from
`src/components/scheduler/base/task_queue_impl.h`.

Conventions of the embedding:
* `base::TimeTicks` and delays are `Nat` (monotone clock values).
* `EnqueueOrder` is `Nat`.
* A fatal assertion (`DCHECK` under a checked, non-NDEBUG build) is modelled
  by returning `none` from an `Option`-valued function: `none` means the
  operation aborted rather than returning.
* The task payload (`base::Closure`) is identified by a `Nat` id; the engine
  never inspects the payload, only orders and dispatches it.
* Multi-threading is modelled by passing the calling thread id explicitly and
  comparing it with the queue's bound consumer (main) thread id, which is
  what `base::ThreadChecker::CalledOnValidThread` does.

Bodies that live in files of this repository not present under `src/`
(task_queue_impl.cc, work_queue_sets.cc, task_queue_selector.cc) are
modelled from the spec; each such definition's doc comment says so.
-/

namespace Scheduler

abbrev EnqueueOrder := Nat
abbrev ThreadId := Nat
abbrev TimeTicks := Nat

/-- `TaskQueue::PumpPolicy` (spec section 6: `AUTO | AFTER_WAKEUP | MANUAL`). -/
inductive PumpPolicy
  | AUTO
  | AFTER_WAKEUP
  | MANUAL
deriving DecidableEq, Repr

/-- `TaskQueue::WakeupPolicy` (spec section 6: can-wake vs cannot-wake). -/
inductive WakeupPolicy
  | CAN_WAKE_OTHER_QUEUES
  | DONT_WAKE_OTHER_QUEUES
deriving DecidableEq, Repr

/-- Modelled from the spec: `TaskQueue::QueuePriority` is declared in
`task_queue.h`, which is not under `src/`; spec section 3 orders the tiers
`control > high > normal > low > best-effort`. -/
inductive QueuePriority
  | CONTROL
  | HIGH
  | NORMAL
  | LOW
  | BEST_EFFORT
deriving DecidableEq, Repr

/-- `TaskQueueImpl::TaskType` (task_queue_impl.h lines 150-153). -/
inductive TaskType
  | NORMAL
  | NON_NESTABLE
deriving DecidableEq, Repr

/-- `TaskQueueImpl::Task` (task_queue_impl.h lines 35-74): payload id,
desired run time, sequence number, nestable flag, plus the
debug-build `enqueue_order_set_` guard and the `enqueue_order_` field. -/
structure Task where
  id : Nat
  desiredRunTime : TimeTicks
  sequenceNumber : Nat
  nestable : Bool
  enqueueOrderSet : Bool
  enqueueOrderVal : EnqueueOrder
deriving DecidableEq, Repr

/-- The four-argument `Task` constructor (task_queue_impl.h lines 38-42):
no enqueue order yet, so `enqueue_order_set_` is false. -/
def Task.make (id : Nat) (desiredRunTime : TimeTicks) (sequenceNumber : Nat)
    (nestable : Bool) : Task :=
  { id := id
    desiredRunTime := desiredRunTime
    sequenceNumber := sequenceNumber
    nestable := nestable
    enqueueOrderSet := false
    enqueueOrderVal := 0 }

/-- The five-argument `Task` constructor (task_queue_impl.h lines 44-49):
the enqueue order is supplied, so the task is born with it set. -/
def Task.makeWithEnqueueOrder (id : Nat) (desiredRunTime : TimeTicks)
    (sequenceNumber : Nat) (nestable : Bool) (enqueueOrder : EnqueueOrder) :
    Task :=
  { id := id
    desiredRunTime := desiredRunTime
    sequenceNumber := sequenceNumber
    nestable := nestable
    enqueueOrderSet := true
    enqueueOrderVal := enqueueOrder }

/-- `Task::enqueue_order` (task_queue_impl.h lines 51-56):
`DCHECK(enqueue_order_set_)` then return `enqueue_order_`.  Reading before
the order has been set is a fatal assertion, modelled as `none`. -/
def Task.enqueue_order (t : Task) : Option EnqueueOrder :=
  if t.enqueueOrderSet then some t.enqueueOrderVal else none

/-- `Task::set_enqueue_order` (task_queue_impl.h lines 58-64):
`DCHECK(!enqueue_order_set_)`, then mark it set and store the value.
Setting twice is a fatal assertion, modelled as `none`. -/
def Task.set_enqueue_order (t : Task) (enqueueOrder : EnqueueOrder) :
    Option Task :=
  if t.enqueueOrderSet then none
  else some { t with enqueueOrderSet := true, enqueueOrderVal := enqueueOrder }

/-- The heap order of `std::priority_queue<Task> delayed_incoming_queue`
(task_queue_impl.h line 167).  Modelled from the spec: the comparison comes
from `base::PendingTask`, not under `src/`; spec section 3 describes the
delayed buffer as a min-heap ordered by desired run time, then sequence
number. -/
def delayedLE (a b : Task) : Prop :=
  a.desiredRunTime < b.desiredRunTime ∨
    (a.desiredRunTime = b.desiredRunTime ∧ a.sequenceNumber ≤ b.sequenceNumber)

instance : DecidableRel delayedLE := fun a b =>
  inferInstanceAs (Decidable (a.desiredRunTime < b.desiredRunTime ∨
    (a.desiredRunTime = b.desiredRunTime ∧ a.sequenceNumber ≤ b.sequenceNumber)))

instance : IsTotal Task delayedLE where
  total a b := by
    rcases Nat.lt_trichotomy a.desiredRunTime b.desiredRunTime with h | h | h
    · exact Or.inl (Or.inl h)
    · rcases Nat.le_total a.sequenceNumber b.sequenceNumber with hs | hs
      · exact Or.inl (Or.inr ⟨h, hs⟩)
      · exact Or.inr (Or.inr ⟨h.symm, hs⟩)
    · exact Or.inr (Or.inl h)

instance : IsTrans Task delayedLE where
  trans a b c hab hbc := by
    rcases hab with hab | ⟨hab, hsab⟩
    · rcases hbc with hbc | ⟨hbc, _⟩
      · exact Or.inl (hab.trans hbc)
      · exact Or.inl (hbc ▸ hab)
    · rcases hbc with hbc | ⟨hbc, hsbc⟩
      · exact Or.inl (hab ▸ hbc)
      · exact Or.inr ⟨hab.trans hbc, hsab.trans hsbc⟩

/-- Record of one dispatched task, kept by the model as the observable
dispatch trace: which task ran, from which work queue, its desired run
time, the consumer clock when it ran, and its enqueue order. -/
structure DispatchRecord where
  id : Nat
  fromImmediate : Bool
  desiredRunTime : TimeTicks
  dispatchTime : TimeTicks
  enqueueOrder : EnqueueOrder
deriving DecidableEq, Repr

/-- The state of one `TaskQueueImpl` together with the per-queue slice of
the manager it needs: `threadId` is the consumer thread bound to
`main_thread_checker_`; `registered` is whether `any_thread().task_queue_manager`
is still non-null; `immediateIncoming`/`delayedIncoming` are the producer-side
buffers of `struct AnyThread` (lines 166-167); `immediateWork`/`delayedWork`
are the consumer-side work queues of `struct MainThreadOnly` (lines 181-182);
`seqCounter` yields sequence numbers at post time and `enqueueCounter` is the
global enqueue-order sequencer used at promotion time; `dispatched` is the
observable trace of tasks already run. -/
structure QState where
  threadId : ThreadId
  registered : Bool
  priority : QueuePriority
  pumpPolicy : PumpPolicy
  wakeupPolicy : WakeupPolicy
  enabled : Bool
  now : TimeTicks
  seqCounter : Nat
  enqueueCounter : EnqueueOrder
  immediateIncoming : List Task
  delayedIncoming : List Task
  immediateWork : List Task
  delayedWork : List Task
  dispatched : List DispatchRecord
deriving DecidableEq, Repr

/-- A freshly created, registered, enabled queue bound to consumer thread 0
with its clock at 0. -/
def initQState : QState :=
  { threadId := 0
    registered := true
    priority := QueuePriority.NORMAL
    pumpPolicy := PumpPolicy.AUTO
    wakeupPolicy := WakeupPolicy.CAN_WAKE_OTHER_QUEUES
    enabled := true
    now := 0
    seqCounter := 0
    enqueueCounter := 1
    immediateIncoming := []
    delayedIncoming := []
    immediateWork := []
    delayedWork := []
    dispatched := [] }

/-- `TaskQueueImpl::PushOntoImmediateIncomingQueueLocked`
(task_queue_impl.h lines 217-220): push the task onto
`immediate_incoming_queue`, and — per the header comment — for auto-pumped
queues call `MaybePostDoWorkOnMainRunner` if the incoming queue was empty.
The returned `Bool` is that wakeup request. -/
def PushOntoImmediateIncomingQueueLocked (q : QState) (t : Task) :
    QState × Bool :=
  let wasEmpty := decide (q.immediateIncoming = [])
  ({ q with immediateIncoming := q.immediateIncoming ++ [t] },
    decide (q.pumpPolicy = PumpPolicy.AUTO) && wasEmpty)

/-- `TaskQueueImpl::PushOntoDelayedIncomingQueueLocked`
(task_queue_impl.h lines 213-215): push the task onto the
`delayed_incoming_queue` min-heap, modelled as ordered insertion into a
list sorted by `delayedLE`. -/
def PushOntoDelayedIncomingQueueLocked (q : QState) (t : Task) : QState :=
  { q with delayedIncoming := q.delayedIncoming.orderedInsert delayedLE t }

/-- Modelled from the spec: the body of `TaskQueueImpl::PostDelayedTaskImpl`
(task_queue_impl.cc is not under `src/`).  Spec section 4.1: callable from
any thread; builds a task with a fresh sequence number under the queue's
lock; zero delay goes to the immediate incoming buffer, positive delay to
the delayed incoming buffer with desired run time `now + delay`; returns
failure as a no-op if the queue has been unregistered.  The result is
(success, new state, wakeup-requested). -/
def PostDelayedTaskImpl (q : QState) (id : Nat) (delay : Nat)
    (taskType : TaskType) : Bool × QState × Bool :=
  if q.registered = false then (false, q, false)
  else
    let seq := q.seqCounter
    let q1 := { q with seqCounter := q.seqCounter + 1 }
    if 0 < delay then
      let t := Task.make id (q1.now + delay) seq
        (decide (taskType = TaskType.NORMAL))
      (true, PushOntoDelayedIncomingQueueLocked q1 t, false)
    else
      let t := Task.make id q1.now seq (decide (taskType = TaskType.NORMAL))
      let pushed := PushOntoImmediateIncomingQueueLocked q1 t
      (true, pushed.1, pushed.2)

/-- `TaskQueueImpl::PostDelayedTask` (task_queue_impl.h lines 79-81):
the normal, nestable task type. -/
def PostDelayedTask (q : QState) (id : Nat) (delay : Nat) :
    Bool × QState × Bool :=
  PostDelayedTaskImpl q id delay TaskType.NORMAL

/-- `TaskQueueImpl::PostNonNestableDelayedTask` (task_queue_impl.h
lines 82-84): the non-nestable task type. -/
def PostNonNestableDelayedTask (q : QState) (id : Nat) (delay : Nat) :
    Bool × QState × Bool :=
  PostDelayedTaskImpl q id delay TaskType.NON_NESTABLE

/-- Assign consecutive enqueue orders from the global sequencer to a batch
of promoted tasks, in the order they are drained (the successful path of
`Task::set_enqueue_order` applied during promotion). -/
def assignEnqueueOrders : List Task → EnqueueOrder → List Task
  | [], _ => []
  | t :: ts, eo =>
    { t with enqueueOrderSet := true, enqueueOrderVal := eo } ::
      assignEnqueueOrders ts (eo + 1)

/-- The delayed incoming tasks whose desired run time has elapsed at the
queue's current `now` (the front segment of the min-heap). -/
def readyDelayedTasks (q : QState) : List Task :=
  q.delayedIncoming.takeWhile (fun t => decide (t.desiredRunTime ≤ q.now))

/-- Modelled from the spec: the body of
`TaskQueueImpl::MoveReadyImmediateTasksToImmediateWorkQueueLocked`
(task_queue_impl.h line 205; body not under `src/`).  Spec section 4.1:
drain the locked immediate incoming buffer FIFO into the immediate work
queue, assigning each moved task's enqueue order from the global sequencer
in drain order. -/
def MoveReadyImmediateTasksToImmediateWorkQueueLocked (q : QState) : QState :=
  { q with
    immediateIncoming := []
    immediateWork := q.immediateWork ++
      assignEnqueueOrders q.immediateIncoming q.enqueueCounter
    enqueueCounter := q.enqueueCounter + q.immediateIncoming.length }

/-- Modelled from the spec: the body of
`TaskQueueImpl::MoveReadyDelayedTasksToDelayedWorkQueueLocked`
(task_queue_impl.h lines 201-203; body not under `src/`).  Spec section
4.1: promote exactly the delayed tasks whose desired run time is ≤ now,
in heap order (desired run time, then sequence number), assigning enqueue
orders from the global sequencer in that order. -/
def MoveReadyDelayedTasksToDelayedWorkQueueLocked (q : QState) : QState :=
  { q with
    delayedIncoming :=
      q.delayedIncoming.dropWhile (fun t => decide (t.desiredRunTime ≤ q.now))
    delayedWork := q.delayedWork ++
      assignEnqueueOrders (readyDelayedTasks q) q.enqueueCounter
    enqueueCounter := q.enqueueCounter + (readyDelayedTasks q).length }

/-- `TaskQueueImpl::PumpQueueLocked` (task_queue_impl.h lines 207-208).
The header comment is explicit: "Note this does nothing if its not called
from the main thread."  On the main thread it promotes both incoming
buffers. -/
def PumpQueueLocked (q : QState) (caller : ThreadId)
    (mayPostDoWork : Bool) : QState :=
  if caller = q.threadId then
    MoveReadyImmediateTasksToImmediateWorkQueueLocked
      (MoveReadyDelayedTasksToDelayedWorkQueueLocked q)
  else q

/-- `TaskQueueImpl::PumpQueue` (task_queue_impl.h line 91): takes the
queue lock and calls `PumpQueueLocked`.  The `Option` result uses the
convention of this file: `none` would mean a fatal assertion, and
`PumpQueue` never produces it. -/
def PumpQueue (q : QState) (caller : ThreadId) (mayPostDoWork : Bool) :
    Option QState :=
  some (PumpQueueLocked q caller mayPostDoWork)

/-- The consumer-thread-only control operations of `TaskQueueImpl`
(spec sections 4.1 and 6).  `setQueueEnabled` is modelled from the spec
(the enable/disable entry point lives outside `src/`); the others are
declared in task_queue_impl.h lines 90-107. -/
inductive ConsumerOp
  | setQueuePriority (p : QueuePriority)
  | setPumpPolicy (pp : PumpPolicy)
  | setQueueEnabled (enabled : Bool)
  | updateImmediateWorkQueue
  | updateDelayedWorkQueue
  | readWakeupPolicy
deriving DecidableEq, Repr

/-- The effect of a consumer op once the thread check has passed
(modelled from the spec for the bodies not under `src/`; reading
`wakeup_policy` has no effect on the state). -/
def applyConsumerOp (q : QState) : ConsumerOp → QState
  | ConsumerOp.setQueuePriority p => { q with priority := p }
  | ConsumerOp.setPumpPolicy pp => { q with pumpPolicy := pp }
  | ConsumerOp.setQueueEnabled b => { q with enabled := b }
  | ConsumerOp.updateImmediateWorkQueue =>
      MoveReadyImmediateTasksToImmediateWorkQueueLocked q
  | ConsumerOp.updateDelayedWorkQueue =>
      MoveReadyDelayedTasksToDelayedWorkQueueLocked q
  | ConsumerOp.readWakeupPolicy => q

/-- Every consumer-thread-only operation begins by asserting the calling
thread: `DCHECK(main_thread_checker_.CalledOnValidThread())` guards
`main_thread_only()` (task_queue_impl.h lines 249-256) and
`wakeup_policy()` (lines 104-107).  A failed check is fatal: `none`. -/
def runConsumerOp (q : QState) (caller : ThreadId) (op : ConsumerOp) :
    Option QState :=
  if caller = q.threadId then some (applyConsumerOp q op) else none

/-- One trace operation on a queue, all performed either by a producer
(post) or by the consumer run loop (advance the queue's time-domain clock,
pump, dispatch).  `post id delay` posts task `id` with the given delay
(zero means immediate). -/
inductive Op
  | post (id : Nat) (delay : Nat)
  | advance (d : Nat)
  | pumpImmediate
  | pumpDelayed
  | dispatch
deriving DecidableEq, Repr

/-- Build the dispatch-trace record for a task popped from a work queue at
consumer time `time`. -/
def mkDispatchRecord (t : Task) (fromImm : Bool) (time : TimeTicks) :
    DispatchRecord :=
  { id := t.id
    fromImmediate := fromImm
    desiredRunTime := t.desiredRunTime
    dispatchTime := time
    enqueueOrder := t.enqueueOrderVal }

/-- Pop the front of the immediate work queue and run it (append it to the
dispatch trace). -/
def popImmediateWork (s : QState) (t : Task) (rest : List Task) : QState :=
  { s with
    immediateWork := rest
    dispatched := s.dispatched ++ [mkDispatchRecord t true s.now] }

/-- Pop the front of the delayed work queue and run it (append it to the
dispatch trace). -/
def popDelayedWork (s : QState) (t : Task) (rest : List Task) : QState :=
  { s with
    delayedWork := rest
    dispatched := s.dispatched ++ [mkDispatchRecord t false s.now] }

/-- Modelled from the spec: one selection step of the dispatcher restricted
to a single queue (`TaskQueueManager`/`TaskQueueSelector` are not under
`src/`).  Spec section 4.3: the front task with the smallest enqueue order
among the queue's ready work queues is selected and run; with no ready
work the loop idles. -/
def selectAndRunOneTask (s : QState) : QState :=
  match s.immediateWork, s.delayedWork with
  | [], [] => s
  | t :: rest, [] => popImmediateWork s t rest
  | [], d :: rest => popDelayedWork s d rest
  | t :: rest, d :: rest2 =>
    if t.enqueueOrderVal ≤ d.enqueueOrderVal then popImmediateWork s t rest
    else popDelayedWork s d rest2

/-- The functional semantics of one trace operation. -/
def stepFn (s : QState) : Op → QState
  | Op.post id delay => (PostDelayedTaskImpl s id delay TaskType.NORMAL).2.1
  | Op.advance d => { s with now := s.now + d }
  | Op.pumpImmediate => MoveReadyImmediateTasksToImmediateWorkQueueLocked s
  | Op.pumpDelayed => MoveReadyDelayedTasksToDelayedWorkQueueLocked s
  | Op.dispatch => selectAndRunOneTask s

/-- Run a whole trace from the fresh queue. -/
def run (ops : List Op) : QState :=
  List.foldl stepFn initQState ops

/-- The ids of the zero-delay (immediate) posts of a trace, in post order. -/
def postedImmediateIds : List Op → List Nat
  | [] => []
  | Op.post id delay :: ops =>
    if delay = 0 then id :: postedImmediateIds ops else postedImmediateIds ops
  | Op.advance _ :: ops => postedImmediateIds ops
  | Op.pumpImmediate :: ops => postedImmediateIds ops
  | Op.pumpDelayed :: ops => postedImmediateIds ops
  | Op.dispatch :: ops => postedImmediateIds ops

/-- The ids of the dispatched tasks that came from the immediate work
queue, in dispatch order. -/
def immDispatchIds (l : List DispatchRecord) : List Nat :=
  (l.filter (fun r => r.fromImmediate)).map (fun r => r.id)

/-- The reachability invariant of the single-queue model, relative to the
ids of the zero-delay posts made so far. -/
structure ReachInv (s : QState) (postedImm : List Nat) : Prop where
  registered : s.registered = true
  imm_chain : immDispatchIds s.dispatched ++ s.immediateWork.map Task.id ++
    s.immediateIncoming.map Task.id = postedImm
  delayed_sorted : List.Sorted delayedLE s.delayedIncoming
  delayed_work_ready : ∀ t ∈ s.delayedWork, t.desiredRunTime ≤ s.now
  dispatched_not_early : ∀ r ∈ s.dispatched, r.fromImmediate = false →
    r.desiredRunTime ≤ r.dispatchTime

/-- The step relation of the model: the same semantics as `stepFn`, stated
relationally so that determinism is a theorem rather than a definition.
The dispatch cases carry the selection conditions as premises. -/
inductive Step : QState → Op → QState → Prop
  | post (s : QState) (id delay : Nat) :
      Step s (Op.post id delay)
        ((PostDelayedTaskImpl s id delay TaskType.NORMAL).2.1)
  | advance (s : QState) (d : Nat) :
      Step s (Op.advance d) { s with now := s.now + d }
  | pumpImmediate (s : QState) :
      Step s Op.pumpImmediate (MoveReadyImmediateTasksToImmediateWorkQueueLocked s)
  | pumpDelayed (s : QState) :
      Step s Op.pumpDelayed (MoveReadyDelayedTasksToDelayedWorkQueueLocked s)
  | dispatchIdle (s : QState)
      (h1 : s.immediateWork = []) (h2 : s.delayedWork = []) :
      Step s Op.dispatch s
  | dispatchImmediate (s : QState) (t : Task) (rest : List Task)
      (h1 : s.immediateWork = t :: rest)
      (h2 : ∀ d rest2, s.delayedWork = d :: rest2 →
        t.enqueueOrderVal ≤ d.enqueueOrderVal) :
      Step s Op.dispatch (popImmediateWork s t rest)
  | dispatchDelayed (s : QState) (d : Task) (rest2 : List Task)
      (h1 : s.delayedWork = d :: rest2)
      (h2 : ∀ t rest, s.immediateWork = t :: rest →
        d.enqueueOrderVal < t.enqueueOrderVal) :
      Step s Op.dispatch (popDelayedWork s d rest2)

/-- A run of the step relation over a whole trace: `Run s ops s2` holds
when the trace `ops` can take the queue from state `s` to state `s2`. -/
def Run : QState → List Op → QState → Prop
  | s, [], s2 => s2 = s
  | s, op :: ops, s2 => ∃ smid, Step s op smid ∧ Run smid ops s2

/-- Modelled from the spec: a priority tier of the Work Queue Set
(`work_queue_sets.cc` is not under `src/`), as the list of participating
queues paired with the enqueue order of each queue's front task.  Spec
section 4.2: internally keyed by enqueue order so the minimum is always the
next task to run within that tier. -/
def minByEnqueueOrder (best c : Nat × EnqueueOrder) : Nat × EnqueueOrder :=
  if c.2 < best.2 then c else best

/-- Modelled from the spec: `WorkQueueSets::GetOldestTaskQueue` — for a
tier, the participating queue whose front task has the smallest enqueue
order, or none if the tier is empty. -/
def GetOldestTaskQueue : List (Nat × EnqueueOrder) →
    Option (Nat × EnqueueOrder)
  | [] => none
  | e :: es => some (es.foldl minByEnqueueOrder e)

/-- Modelled from the spec: the fixed total order of the priority tiers,
highest first (spec sections 3 and 4.3). -/
def priorityOrder : List QueuePriority :=
  [QueuePriority.CONTROL, QueuePriority.HIGH, QueuePriority.NORMAL,
    QueuePriority.LOW, QueuePriority.BEST_EFFORT]

/-- Rank of a priority tier: lower rank means higher priority. -/
def priorityRank : QueuePriority → Nat
  | QueuePriority.CONTROL => 0
  | QueuePriority.HIGH => 1
  | QueuePriority.NORMAL => 2
  | QueuePriority.LOW => 3
  | QueuePriority.BEST_EFFORT => 4

/-- Modelled from the spec: the selection scan of the dispatcher
(`task_queue_selector.cc` is not under `src/`).  Spec section 4.3: scan
priority tiers from highest to lowest; within the first non-empty tier ask
the Work Queue Set for the queue with the smallest enqueue order. -/
def selectFromTiers (tiers : QueuePriority → List (Nat × EnqueueOrder)) :
    List QueuePriority → Option (QueuePriority × Nat × EnqueueOrder)
  | [] => none
  | p :: ps =>
    match GetOldestTaskQueue (tiers p) with
    | some e => some (p, e.1, e.2)
    | none => selectFromTiers tiers ps

/-- Modelled from the spec: the dispatcher's selection across all tiers,
highest priority first. -/
def SelectWorkQueueToService
    (tiers : QueuePriority → List (Nat × EnqueueOrder)) :
    Option (QueuePriority × Nat × EnqueueOrder) :=
  selectFromTiers tiers priorityOrder

/-- A sample Work Queue Set configuration used to instantiate the selection
theorems: queue 1 is ready in the HIGH tier with front enqueue order 4,
queue 2 in the NORMAL tier with front enqueue order 3. -/
def sampleTiers : QueuePriority → List (Nat × EnqueueOrder) :=
  fun p =>
    if p = QueuePriority.HIGH then [(1, 4)]
    else if p = QueuePriority.NORMAL then [(2, 3)]
    else []

theorem assignEnqueueOrders_map_id (l : List Task) (c : EnqueueOrder) :
    (assignEnqueueOrders l c).map Task.id = l.map Task.id := by
  induction l generalizing c with
  | nil => rfl
  | cons t ts ih => simp [assignEnqueueOrders, ih]

theorem mem_assignEnqueueOrders (l : List Task) (c : EnqueueOrder) (t : Task)
    (h : t ∈ assignEnqueueOrders l c) :
    ∃ t0 ∈ l, t.desiredRunTime = t0.desiredRunTime ∧
      t.sequenceNumber = t0.sequenceNumber := by
  induction l generalizing c with
  | nil => simp [assignEnqueueOrders] at h
  | cons t0 ts ih =>
    simp only [assignEnqueueOrders, List.mem_cons] at h
    rcases h with h | h
    · exact ⟨t0, List.mem_cons_self _ _, by simp [h]⟩
    · obtain ⟨t1, ht1, h1, h2⟩ := ih (c + 1) h
      exact ⟨t1, List.mem_cons_of_mem _ ht1, h1, h2⟩

theorem dropWhile_ready_gt (l : List Task) (now : Nat) :
    List.Sorted delayedLE l →
    ∀ t ∈ l.dropWhile (fun t => decide (t.desiredRunTime ≤ now)),
      now < t.desiredRunTime := by
  induction l with
  | nil => intro _ t ht; simp at ht
  | cons a l ih =>
    intro hs t ht
    by_cases ha : a.desiredRunTime ≤ now
    · rw [List.dropWhile_cons_of_pos (by simpa using ha)] at ht
      exact ih hs.of_cons t ht
    · rw [List.dropWhile_cons_of_neg (by simpa using ha)] at ht
      rcases List.mem_cons.mp ht with rfl | ht
      · exact Nat.not_le.mp ha
      · have hrel := List.rel_of_sorted_cons hs t ht
        have hle : a.desiredRunTime ≤ t.desiredRunTime := by
          rcases hrel with h | ⟨h, _⟩
          · exact le_of_lt h
          · exact le_of_eq h
        exact Nat.lt_of_lt_of_le (Nat.not_le.mp ha) hle

theorem postedImmediateIds_cons (op : Op) (ops : List Op) :
    postedImmediateIds (op :: ops) =
      postedImmediateIds [op] ++ postedImmediateIds ops := by
  cases op with
  | post id delay =>
    by_cases hd : delay = 0 <;> simp [postedImmediateIds, hd]
  | advance d => simp [postedImmediateIds]
  | pumpImmediate => simp [postedImmediateIds]
  | pumpDelayed => simp [postedImmediateIds]
  | dispatch => simp [postedImmediateIds]

theorem reachInv_init : ReachInv initQState [] := by
  refine ⟨rfl, rfl, ?_, ?_, ?_⟩ <;> simp [initQState]

theorem reachInv_step {s : QState} {postedImm : List Nat} (op : Op)
    (h : ReachInv s postedImm) :
    ReachInv (stepFn s op) (postedImm ++ postedImmediateIds [op]) := by
  obtain ⟨hreg, hchain, hsorted, hready, hdisp⟩ := h
  cases op with
  | post id delay =>
    by_cases hd : 0 < delay
    · have hdz : ¬delay = 0 := by omega
      simp only [stepFn, PostDelayedTaskImpl, postedImmediateIds,
        if_neg hdz, List.append_nil]
      rw [if_neg (by simp [hreg]), if_pos hd]
      simp only [PushOntoDelayedIncomingQueueLocked]
      refine ⟨hreg, hchain, ?_, hready, hdisp⟩
      exact List.Sorted.orderedInsert _ _ hsorted
    · have hdz : delay = 0 := by omega
      subst hdz
      simp only [stepFn, PostDelayedTaskImpl, postedImmediateIds, if_pos rfl]
      rw [if_neg (by simp [hreg]), if_neg (by omega)]
      simp only [PushOntoImmediateIncomingQueueLocked]
      refine ⟨hreg, ?_, hsorted, hready, hdisp⟩
      simp only [List.map_append, Task.make, List.map_cons, List.map_nil]
      simpa using congrArg (· ++ [id]) hchain
  | advance d =>
    simp only [stepFn, postedImmediateIds, List.append_nil]
    refine ⟨hreg, hchain, hsorted, ?_, hdisp⟩
    intro t ht
    exact le_trans (hready t ht) (Nat.le_add_right _ _)
  | pumpImmediate =>
    simp only [stepFn, MoveReadyImmediateTasksToImmediateWorkQueueLocked,
      postedImmediateIds, List.append_nil]
    refine ⟨hreg, ?_, hsorted, hready, hdisp⟩
    simp only [List.map_append, assignEnqueueOrders_map_id, List.map_nil,
      List.append_nil]
    simpa using hchain
  | pumpDelayed =>
    simp only [stepFn, MoveReadyDelayedTasksToDelayedWorkQueueLocked,
      postedImmediateIds, List.append_nil]
    refine ⟨hreg, hchain, ?_, ?_, hdisp⟩
    · exact List.Pairwise.sublist (List.dropWhile_sublist _) hsorted
    · intro t ht
      rcases List.mem_append.mp ht with ht | ht
      · exact hready t ht
      · obtain ⟨t0, ht0, hdrt, _⟩ := mem_assignEnqueueOrders _ _ t ht
        have ht0w : t0 ∈ s.delayedIncoming.takeWhile
            (fun t => decide (t.desiredRunTime ≤ s.now)) := by
          simpa [readyDelayedTasks] using ht0
        have hp := List.mem_takeWhile_imp ht0w
        rw [hdrt]
        simpa using hp
  | dispatch =>
    simp only [stepFn, postedImmediateIds, List.append_nil]
    rcases himm : s.immediateWork with _ | ⟨t, rest⟩ <;>
      rcases hdel : s.delayedWork with _ | ⟨d, rest2⟩
    · have hsel : selectAndRunOneTask s = s := by
        simp [selectAndRunOneTask, himm, hdel]
      rw [hsel]
      exact ⟨hreg, hchain, hsorted, hready, hdisp⟩
    · have hsel : selectAndRunOneTask s = popDelayedWork s d rest2 := by
        simp [selectAndRunOneTask, himm, hdel]
      rw [hsel]
      simp only [popDelayedWork]
      refine ⟨hreg, ?_, hsorted, ?_, ?_⟩
      · simpa [immDispatchIds, List.filter_append, mkDispatchRecord]
          using hchain
      · intro x hx
        refine hready x ?_
        rw [hdel]
        exact List.mem_cons_of_mem _ hx
      · intro r hr hfalse
        rcases List.mem_append.mp hr with hr | hr
        · exact hdisp r hr hfalse
        · have hrd : r = mkDispatchRecord d false s.now := by simpa using hr
          subst hrd
          refine hready d ?_
          rw [hdel]
          exact List.mem_cons_self _ _
    · have hsel : selectAndRunOneTask s = popImmediateWork s t rest := by
        simp [selectAndRunOneTask, himm, hdel]
      rw [hsel]
      simp only [popImmediateWork]
      refine ⟨hreg, ?_, hsorted, hready, ?_⟩
      · rw [himm] at hchain
        simpa [immDispatchIds, List.filter_append, mkDispatchRecord,
          List.append_assoc] using hchain
      · intro r hr hfalse
        rcases List.mem_append.mp hr with hr | hr
        · exact hdisp r hr hfalse
        · have hrd : r = mkDispatchRecord t true s.now := by simpa using hr
          subst hrd
          simp [mkDispatchRecord] at hfalse
    · by_cases hcmp : t.enqueueOrderVal ≤ d.enqueueOrderVal
      · have hsel : selectAndRunOneTask s = popImmediateWork s t rest := by
          simp [selectAndRunOneTask, himm, hdel, hcmp]
        rw [hsel]
        simp only [popImmediateWork]
        refine ⟨hreg, ?_, hsorted, hready, ?_⟩
        · rw [himm] at hchain
          simpa [immDispatchIds, List.filter_append, mkDispatchRecord,
            List.append_assoc] using hchain
        · intro r hr hfalse
          rcases List.mem_append.mp hr with hr | hr
          · exact hdisp r hr hfalse
          · have hrd : r = mkDispatchRecord t true s.now := by simpa using hr
            subst hrd
            simp [mkDispatchRecord] at hfalse
      · have hsel : selectAndRunOneTask s = popDelayedWork s d rest2 := by
          simp [selectAndRunOneTask, himm, hdel, hcmp]
        rw [hsel]
        simp only [popDelayedWork]
        refine ⟨hreg, ?_, hsorted, ?_, ?_⟩
        · simpa [immDispatchIds, List.filter_append, mkDispatchRecord]
            using hchain
        · intro x hx
          refine hready x ?_
          rw [hdel]
          exact List.mem_cons_of_mem _ hx
        · intro r hr hfalse
          rcases List.mem_append.mp hr with hr | hr
          · exact hdisp r hr hfalse
          · have hrd : r = mkDispatchRecord d false s.now := by simpa using hr
            subst hrd
            refine hready d ?_
            rw [hdel]
            exact List.mem_cons_self _ _

theorem reachInv_runAll (ops : List Op) :
    ∀ (s : QState) (postedImm : List Nat), ReachInv s postedImm →
      ReachInv (List.foldl stepFn s ops)
        (postedImm ++ postedImmediateIds ops) := by
  induction ops with
  | nil => intro s pi h; simpa [postedImmediateIds] using h
  | cons op ops ih =>
    intro s pi h
    have h1 := reachInv_step op h
    have h2 := ih _ _ h1
    rw [postedImmediateIds_cons]
    simpa [List.append_assoc] using h2


/-- Claim C1: for every `Task`, the enqueue order is set exactly once and is
unreadable before it has been set: `enqueue_order()` before a set aborts
(returns `none`, the model of a failed `DCHECK`), a second
`set_enqueue_order` aborts instead of overwriting, and a successful set
makes the order readable exactly as stored. -/
theorem enqueue_order_set_exactly_once :
    (∀ t : Task, t.enqueueOrderSet = false → t.enqueue_order = none) ∧
    (∀ (t : Task) (eo : EnqueueOrder), t.enqueueOrderSet = true →
      t.set_enqueue_order eo = none) ∧
    (∀ (t t' : Task) (eo : EnqueueOrder), t.set_enqueue_order eo = some t' →
      t'.enqueue_order = some eo ∧
        ∀ eo2 : EnqueueOrder, t'.set_enqueue_order eo2 = none) := by
  refine ⟨fun t h => ?_, fun t eo h => ?_, fun t t' eo h => ?_⟩
  · simp [Task.enqueue_order, h]
  · simp [Task.set_enqueue_order, h]
  · by_cases hset : t.enqueueOrderSet
    · simp [Task.set_enqueue_order, hset] at h
    · simp [Task.set_enqueue_order, hset] at h
      subst h
      constructor
      · simp [Task.enqueue_order]
      · intro eo2
        simp [Task.set_enqueue_order]

/-- Concrete instantiation of `enqueue_order_set_exactly_once`: the freshly
posted task `Task.make 7 0 1 true` has no readable enqueue order; after
`set_enqueue_order 42` the order reads back as `42` and a second set aborts. -/
theorem enqueue_order_set_exactly_once_witness :
    (Task.make 7 0 1 true).enqueue_order = none ∧
    ((Task.make 7 0 1 true).set_enqueue_order 42 =
      some (Task.makeWithEnqueueOrder 7 0 1 true 42)) ∧
    (Task.makeWithEnqueueOrder 7 0 1 true 42).enqueue_order = some 42 ∧
    (Task.makeWithEnqueueOrder 7 0 1 true 42).set_enqueue_order 5 = none := by
  refine ⟨enqueue_order_set_exactly_once.1 _ rfl, by decide, ?_⟩
  have h := enqueue_order_set_exactly_once.2.2 (Task.make 7 0 1 true)
    (Task.makeWithEnqueueOrder 7 0 1 true 42) 42 (by decide)
  exact ⟨h.1, h.2 5⟩

/-- Claim C2, counterexample: the claim as stated includes `PumpQueue` among
the operations that fail a fatal assertion when invoked off the consumer
thread, but `PumpQueueLocked` "does nothing if its not called from the main
thread" (task_queue_impl.h lines 207-208): called from thread 1 on a queue
bound to thread 0, `PumpQueue` returns normally with the state unchanged
instead of aborting. -/
theorem pump_queue_off_thread_returns_normally :
    (1 : ThreadId) ≠ initQState.threadId ∧
      PumpQueue initQState 1 true = some initQState := by
  constructor
  · decide
  · rfl

/-- Claim C2 (amended: without `PumpQueue`, which silently no-ops off the
main thread): every consumer-thread-only operation of `TaskQueueImpl`
(SetQueuePriority, SetPumpPolicy, enable/disable, UpdateImmediateWorkQueue,
UpdateDelayedWorkQueue, reading wakeup_policy), when invoked from a thread
other than the consumer thread, fails a fatal assertion (`none`) rather
than proceeding or silently returning. -/
theorem consumer_ops_off_thread_fatal (q : QState) (caller : ThreadId)
    (op : ConsumerOp) (h : caller ≠ q.threadId) :
    runConsumerOp q caller op = none := by
  simp [runConsumerOp, h]

/-- Concrete instantiation of `consumer_ops_off_thread_fatal`: reading the
wakeup policy from thread 1 on a queue bound to thread 0 aborts. -/
theorem consumer_ops_off_thread_fatal_witness :
    (1 : ThreadId) ≠ initQState.threadId ∧
      runConsumerOp initQState 1 ConsumerOp.readWakeupPolicy = none :=
  ⟨by decide, consumer_ops_off_thread_fatal initQState 1
    ConsumerOp.readWakeupPolicy (by decide)⟩

/-- Claim C10: calling `PumpQueue` (via `PumpQueueLocked`) from a thread
other than the consumer thread is a silent no-op: it returns without
promoting any task or modifying any queue state, rather than aborting. -/
theorem pump_queue_locked_off_thread_noop (q : QState) (caller : ThreadId)
    (mayPostDoWork : Bool) (h : caller ≠ q.threadId) :
    PumpQueueLocked q caller mayPostDoWork = q ∧
      PumpQueue q caller mayPostDoWork = some q := by
  have hq : PumpQueueLocked q caller mayPostDoWork = q := by
    simp [PumpQueueLocked, h]
  exact ⟨hq, by simp [PumpQueue, hq]⟩

/-- Concrete instantiation of `pump_queue_locked_off_thread_noop` at a
queue with pending incoming work: nothing is promoted. -/
theorem pump_queue_locked_off_thread_noop_witness :
    (1 : ThreadId) ≠ initQState.threadId ∧
      PumpQueueLocked initQState 1 true = initQState :=
  ⟨by decide, (pump_queue_locked_off_thread_noop initQState 1 true
    (by decide)).1⟩

/-- Claim C7: posting a task (`PostDelayedTask` or
`PostNonNestableDelayedTask`) to a queue that has been unregistered returns
false and leaves all scheduler state unchanged — no task is enqueued and no
wakeup is requested; it never aborts. -/
theorem post_to_unregistered_queue_is_noop (q : QState) (id delay : Nat)
    (h : q.registered = false) :
    PostDelayedTask q id delay = (false, q, false) ∧
      PostNonNestableDelayedTask q id delay = (false, q, false) := by
  constructor
  · simp [PostDelayedTask, PostDelayedTaskImpl, h]
  · simp [PostNonNestableDelayedTask, PostDelayedTaskImpl, h]

/-- Concrete instantiation of `post_to_unregistered_queue_is_noop` on an
unregistered copy of the initial queue. -/
theorem post_to_unregistered_queue_is_noop_witness :
    { initQState with registered := false }.registered = false ∧
      PostDelayedTask { initQState with registered := false } 3 0 =
        (false, { initQState with registered := false }, false) :=
  ⟨rfl, (post_to_unregistered_queue_is_noop
    { initQState with registered := false } 3 0 rfl).1⟩

/-- Claim C8: for every zero-delay post to a registered queue whose pump
policy is AUTO, a wakeup of the consumer thread is requested if and only if
the queue's immediate incoming buffer was empty immediately before the
post; the same holds of the underlying
`PushOntoImmediateIncomingQueueLocked` step for any task. -/
theorem auto_pump_wakeup_iff_buffer_was_empty (q : QState) (t : Task)
    (id : Nat) (hauto : q.pumpPolicy = PumpPolicy.AUTO) :
    ((PushOntoImmediateIncomingQueueLocked q t).2 = true ↔
        q.immediateIncoming = []) ∧
      (q.registered = true →
        ((PostDelayedTask q id 0).2.2 = true ↔ q.immediateIncoming = [])) := by
  constructor
  · simp [PushOntoImmediateIncomingQueueLocked, hauto]
  · intro hreg
    simp [PostDelayedTask, PostDelayedTaskImpl, hreg,
      PushOntoImmediateIncomingQueueLocked, hauto]

/-- Concrete instantiation of `auto_pump_wakeup_iff_buffer_was_empty`: a
zero-delay post to the fresh AUTO queue with an empty buffer requests a
wakeup. -/
theorem auto_pump_wakeup_iff_buffer_was_empty_witness :
    initQState.pumpPolicy = PumpPolicy.AUTO ∧
      (PostDelayedTask initQState 3 0).2.2 = true :=
  ⟨rfl, ((auto_pump_wakeup_iff_buffer_was_empty initQState
    (Task.make 3 0 0 true) 3 rfl).2 rfl).mpr rfl⟩

/-- Claim C3: for every sequence of zero-delay (immediate) posts made to a
single queue from a single thread, the dispatch order of those tasks equals
their post order: after any trace, the ids of the immediate tasks
dispatched so far, followed by what still waits in the work and incoming
buffers, are exactly the zero-delay post ids in post order — so the
dispatched ones form a prefix of the post order. -/
theorem immediate_dispatch_order_equals_post_order (ops : List Op) :
    ∃ pending, immDispatchIds (run ops).dispatched ++ pending =
      postedImmediateIds ops := by
  have h := (reachInv_runAll ops initQState [] reachInv_init).imm_chain
  refine ⟨(run ops).immediateWork.map Task.id ++
    (run ops).immediateIncoming.map Task.id, ?_⟩
  simpa [run, List.append_assoc] using h

/-- Claim C4: after any trace, (1) no delayed task was ever dispatched
before its desired run time relative to the queue's time domain clock, and
(2) promotion via `MoveReadyDelayedTasksToDelayedWorkQueueLocked` at the
current `now` moves exactly the delayed tasks whose desired run time is at
most `now` — all of them, none of the others, in (desired run time,
sequence number) order — appending them to the delayed work queue. -/
theorem delayed_not_early_and_promotion_exact (ops : List Op) :
    (∀ r ∈ (run ops).dispatched, r.fromImmediate = false →
      r.desiredRunTime ≤ r.dispatchTime) ∧
    (∀ t ∈ readyDelayedTasks (run ops), t.desiredRunTime ≤ (run ops).now) ∧
    (∀ t ∈ (MoveReadyDelayedTasksToDelayedWorkQueueLocked
        (run ops)).delayedIncoming, (run ops).now < t.desiredRunTime) ∧
    (readyDelayedTasks (run ops) ++
      (MoveReadyDelayedTasksToDelayedWorkQueueLocked
        (run ops)).delayedIncoming = (run ops).delayedIncoming) ∧
    List.Sorted delayedLE (readyDelayedTasks (run ops)) ∧
    ((MoveReadyDelayedTasksToDelayedWorkQueueLocked
        (run ops)).delayedWork.map Task.id =
      (run ops).delayedWork.map Task.id ++
        (readyDelayedTasks (run ops)).map Task.id) := by
  have hinv := reachInv_runAll ops initQState [] reachInv_init
  refine ⟨hinv.dispatched_not_early, ?_, ?_, ?_, ?_, ?_⟩
  · intro t ht
    have ht2 : t ∈ (run ops).delayedIncoming.takeWhile
        (fun t => decide (t.desiredRunTime ≤ (run ops).now)) := ht
    simpa using List.mem_takeWhile_imp ht2
  · exact dropWhile_ready_gt _ _ hinv.delayed_sorted
  · simp only [MoveReadyDelayedTasksToDelayedWorkQueueLocked, readyDelayedTasks]
    exact List.takeWhile_append_dropWhile _ _
  · exact List.Pairwise.sublist (List.takeWhile_sublist _) hinv.delayed_sorted
  · simp [MoveReadyDelayedTasksToDelayedWorkQueueLocked, List.map_append,
      assignEnqueueOrders_map_id]

theorem step_eq_stepFn {s : QState} {op : Op} {s2 : QState}
    (h : Step s op s2) : s2 = stepFn s op := by
  cases h with
  | post => rfl
  | advance => rfl
  | pumpImmediate => rfl
  | pumpDelayed => rfl
  | dispatchIdle h1 h2 => simp [stepFn, selectAndRunOneTask, h1, h2]
  | dispatchImmediate t rest h1 h2 =>
    rcases hdel : s.delayedWork with _ | ⟨d, rest2⟩
    · simp [stepFn, selectAndRunOneTask, h1, hdel]
    · have hle := h2 d rest2 hdel
      simp [stepFn, selectAndRunOneTask, h1, hdel, hle]
  | dispatchDelayed d rest2 h1 h2 =>
    rcases himm : s.immediateWork with _ | ⟨t, rest⟩
    · simp [stepFn, selectAndRunOneTask, himm, h1]
    · have hlt := h2 t rest himm
      have hnle : ¬t.enqueueOrderVal ≤ d.enqueueOrderVal := Nat.not_le.mpr hlt
      simp [stepFn, selectAndRunOneTask, himm, h1, hnle]

theorem run_deterministic {ops : List Op} :
    ∀ {s s1 s2 : QState}, Run s ops s1 → Run s ops s2 → s1 = s2 := by
  induction ops with
  | nil =>
    intro s s1 s2 h1 h2
    simp only [Run] at h1 h2
    rw [h1, h2]
  | cons op ops ih =>
    intro s s1 s2 h1 h2
    obtain ⟨m1, hs1, hr1⟩ := h1
    obtain ⟨m2, hs2, hr2⟩ := h2
    have hm : m1 = m2 := (step_eq_stepFn hs1).trans (step_eq_stepFn hs2).symm
    subst hm
    exact ih hr1 hr2

theorem getOldest_none_iff (tier : List (Nat × EnqueueOrder)) :
    GetOldestTaskQueue tier = none ↔ tier = [] := by
  cases tier <;> simp [GetOldestTaskQueue]

theorem foldl_minByEnqueueOrder_mem (es : List (Nat × EnqueueOrder))
    (e : Nat × EnqueueOrder) : es.foldl minByEnqueueOrder e ∈ e :: es := by
  induction es generalizing e with
  | nil => simp
  | cons c es ih =>
    simp only [List.foldl_cons]
    have h := ih (minByEnqueueOrder e c)
    have hm : minByEnqueueOrder e c = e ∨ minByEnqueueOrder e c = c := by
      unfold minByEnqueueOrder
      split
      · exact Or.inr rfl
      · exact Or.inl rfl
    rcases hm with hm | hm <;> rw [hm] at h ⊢ <;>
      simp only [List.mem_cons] at h ⊢ <;> tauto

theorem foldl_minByEnqueueOrder_le (es : List (Nat × EnqueueOrder))
    (e : Nat × EnqueueOrder) :
    (es.foldl minByEnqueueOrder e).2 ≤ e.2 ∧
      ∀ c ∈ es, (es.foldl minByEnqueueOrder e).2 ≤ c.2 := by
  induction es generalizing e with
  | nil => simp
  | cons c es ih =>
    simp only [List.foldl_cons]
    obtain ⟨h1, h2⟩ := ih (minByEnqueueOrder e c)
    have hmin : (minByEnqueueOrder e c).2 ≤ e.2 ∧
        (minByEnqueueOrder e c).2 ≤ c.2 := by
      unfold minByEnqueueOrder
      split
      · next hlt => exact ⟨Nat.le_of_lt hlt, Nat.le_refl _⟩
      · next hlt => exact ⟨Nat.le_refl _, Nat.le_of_not_lt hlt⟩
    refine ⟨Nat.le_trans h1 hmin.1, ?_⟩
    intro x hx
    rcases List.mem_cons.mp hx with rfl | hx
    · exact Nat.le_trans h1 hmin.2
    · exact h2 x hx

theorem selectFromTiers_eq_some
    (tiers : QueuePriority → List (Nat × EnqueueOrder)) :
    ∀ (l : List QueuePriority) (psel : QueuePriority) (qid : Nat)
      (eo : EnqueueOrder), selectFromTiers tiers l = some (psel, qid, eo) →
      ∃ l1 l2, l = l1 ++ psel :: l2 ∧ (∀ p2 ∈ l1, tiers p2 = []) ∧
        GetOldestTaskQueue (tiers psel) = some (qid, eo) := by
  intro l
  induction l with
  | nil => intro psel qid eo h; simp [selectFromTiers] at h
  | cons p ps ih =>
    intro psel qid eo h
    simp only [selectFromTiers] at h
    cases hg : GetOldestTaskQueue (tiers p) with
    | some e =>
      rw [hg] at h
      simp only [Option.some.injEq] at h
      obtain ⟨rfl, rfl, rfl⟩ := h
      exact ⟨[], ps, rfl, by simp, by simpa using hg⟩
    | none =>
      rw [hg] at h
      obtain ⟨l1, l2, rfl, hemp, hold⟩ := ih psel qid eo h
      refine ⟨p :: l1, l2, rfl, ?_, hold⟩
      intro p2 hp2
      rcases List.mem_cons.mp hp2 with rfl | hp2
      · exact (getOldest_none_iff _).mp hg
      · exact hemp p2 hp2

theorem selectFromTiers_isSome
    (tiers : QueuePriority → List (Nat × EnqueueOrder))
    (l : List QueuePriority) (p : QueuePriority) (hp : p ∈ l)
    (hne : tiers p ≠ []) :
    ∃ r, selectFromTiers tiers l = some r := by
  induction l with
  | nil => simp at hp
  | cons a as ih =>
    simp only [selectFromTiers]
    cases hg : GetOldestTaskQueue (tiers a) with
    | some e => exact ⟨(a, e.1, e.2), rfl⟩
    | none =>
      rcases List.mem_cons.mp hp with rfl | hp2
      · exact absurd ((getOldest_none_iff _).mp hg) hne
      · exact ih hp2

theorem mem_priorityOrder (p : QueuePriority) : p ∈ priorityOrder := by
  cases p <;> simp [priorityOrder]

theorem priorityOrder_rank_sorted :
    List.Sorted (fun a b => priorityRank a < priorityRank b) priorityOrder := by
  decide


/-- Claim C5: the Work Queue Set's `GetOldestTaskQueue(tier)` returns none
exactly when the tier is empty, and otherwise returns a participating queue
whose front task has the smallest enqueue order in that tier — so of any
two ready tasks in the same tier, the one with the smaller enqueue order is
selected first. -/
theorem oldest_task_queue_is_min_enqueue_order
    (tier : List (Nat × EnqueueOrder)) :
    (GetOldestTaskQueue tier = none ↔ tier = []) ∧
      ∀ e, GetOldestTaskQueue tier = some e →
        e ∈ tier ∧ ∀ c ∈ tier, e.2 ≤ c.2 := by
  refine ⟨getOldest_none_iff tier, ?_⟩
  intro e he
  cases tier with
  | nil => simp [GetOldestTaskQueue] at he
  | cons a es =>
    simp only [GetOldestTaskQueue, Option.some.injEq] at he
    subst he
    refine ⟨foldl_minByEnqueueOrder_mem es a, ?_⟩
    intro c hc
    obtain ⟨h1, h2⟩ := foldl_minByEnqueueOrder_le es a
    rcases List.mem_cons.mp hc with rfl | hc
    · exact h1
    · exact h2 c hc

theorem oldest_task_queue_is_min_enqueue_order_witness :
    GetOldestTaskQueue [(1, 4), (2, 3)] = some (2, 3) ∧
      (2, 3) ∈ [(1, (4 : EnqueueOrder)), (2, 3)] ∧
      ∀ c ∈ [(1, (4 : EnqueueOrder)), (2, 3)], (2, 3).2 ≤ c.2 := by
  have h := (oldest_task_queue_is_min_enqueue_order [(1, 4), (2, 3)]).2
    (2, 3) (by decide)
  exact ⟨by decide, h.1, h.2⟩

/-- Claim C6: for any two tiers that both have ready work, selection scans
priority tiers from highest to lowest and serves the first non-empty tier:
the selected tier is at least as high as the higher of the two, never the
lower one, and the selected queue is the tier's oldest by enqueue order. -/
theorem higher_priority_tier_selected_first
    (tiers : QueuePriority → List (Nat × EnqueueOrder)) (p q : QueuePriority)
    (hp : tiers p ≠ []) (hq : tiers q ≠ [])
    (hpq : priorityRank p < priorityRank q) :
    ∃ psel qid eo, SelectWorkQueueToService tiers = some (psel, qid, eo) ∧
      priorityRank psel ≤ priorityRank p ∧ psel ≠ q ∧
      GetOldestTaskQueue (tiers psel) = some (qid, eo) := by
  obtain ⟨⟨psel, qid, eo⟩, hsel⟩ :=
    selectFromTiers_isSome tiers priorityOrder p (mem_priorityOrder p) hp
  obtain ⟨l1, l2, hsplit, hemp, hold⟩ :=
    selectFromTiers_eq_some tiers priorityOrder psel qid eo hsel
  have hrank : priorityRank psel ≤ priorityRank p := by
    have hpmem : p ∈ l1 ++ psel :: l2 := hsplit ▸ mem_priorityOrder p
    rcases List.mem_append.mp hpmem with hmem | hmem
    · exact absurd (hemp p hmem) hp
    · rcases List.mem_cons.mp hmem with rfl | hmem
      · exact Nat.le_refl _
      · have hsorted := priorityOrder_rank_sorted
        rw [hsplit] at hsorted
        have hsub : List.Sorted (fun a b => priorityRank a < priorityRank b)
            (psel :: l2) :=
          List.Pairwise.sublist (List.sublist_append_right l1 _) hsorted
        exact Nat.le_of_lt (List.rel_of_sorted_cons hsub p hmem)
  refine ⟨psel, qid, eo, hsel, hrank, ?_, hold⟩
  intro hqeq
  subst hqeq
  exact absurd (Nat.lt_of_le_of_lt hrank hpq) (Nat.lt_irrefl _)

theorem higher_priority_tier_selected_first_witness :
    sampleTiers QueuePriority.HIGH ≠ [] ∧
      ∃ psel qid eo, SelectWorkQueueToService sampleTiers =
          some (psel, qid, eo) ∧
        priorityRank psel ≤ priorityRank QueuePriority.HIGH ∧
        psel ≠ QueuePriority.NORMAL ∧
        GetOldestTaskQueue (sampleTiers psel) = some (qid, eo) :=
  ⟨by decide, higher_priority_tier_selected_first sampleTiers
    QueuePriority.HIGH QueuePriority.NORMAL (by decide) (by decide)
    (by decide)⟩

/-- Claim C9: the dispatcher is deterministic — any two runs of the same
trace of operations (same posts, same clock advances) from the same start
state end in the same state and in particular produce the identical
sequence of dispatched tasks. -/
theorem dispatcher_is_deterministic (s s1 s2 : QState) (ops : List Op)
    (h1 : Run s ops s1) (h2 : Run s ops s2) :
    s1.dispatched = s2.dispatched := by
  rw [run_deterministic h1 h2]

theorem dispatcher_is_deterministic_witness :
    ({ initQState with now := initQState.now + 3 } : QState).dispatched =
      ({ initQState with now := initQState.now + 3 } : QState).dispatched := by
  have hrun : Run initQState [Op.advance 3]
      { initQState with now := initQState.now + 3 } :=
    ⟨{ initQState with now := initQState.now + 3 },
      Step.advance initQState 3, rfl⟩
  exact dispatcher_is_deterministic initQState _ _ [Op.advance 3] hrun hrun

theorem immediate_dispatch_order_equals_post_order_witness :
    ∃ pending, immDispatchIds (run [Op.post 10 0, Op.post 11 0,
        Op.pumpImmediate, Op.dispatch]).dispatched ++ pending =
      postedImmediateIds [Op.post 10 0, Op.post 11 0, Op.pumpImmediate,
        Op.dispatch] :=
  immediate_dispatch_order_equals_post_order
    [Op.post 10 0, Op.post 11 0, Op.pumpImmediate, Op.dispatch]

theorem delayed_not_early_and_promotion_exact_witness :
    (run [Op.post 20 5, Op.advance 5, Op.pumpDelayed, Op.dispatch]).dispatched =
      [{ id := 20, fromImmediate := false, desiredRunTime := 5,
         dispatchTime := 5, enqueueOrder := 1 }] ∧
    ({ id := 20, fromImmediate := false, desiredRunTime := 5,
       dispatchTime := 5, enqueueOrder := 1 } : DispatchRecord).desiredRunTime ≤
      ({ id := 20, fromImmediate := false, desiredRunTime := 5,
         dispatchTime := 5, enqueueOrder := 1 } : DispatchRecord).dispatchTime := by
  constructor
  · decide
  · exact (delayed_not_early_and_promotion_exact
      [Op.post 20 5, Op.advance 5, Op.pumpDelayed, Op.dispatch]).1
      _ (by decide) rfl

end Scheduler
